import Mathlib

/-!
Verification of the `poof` secret store (github.com/thechriswalker/poof).

The development shallowly embeds the two store backends:

* the volatile in-memory `Store` of `poof.go` (a Go map of `Key` to entries,
  a per-entry eviction timer created by `time.AfterFunc`, and the counters
  `added` / `expired` / `burned`), and
* the durable `PersistentStore` (an SQLite `items` table with `key` as
  PRIMARY KEY plus a `meta` row holding the base64 seed and the counters).

Go maps are embedded as association lists kept key-unique by construction
(`ainsert` removes the old binding before consing the new one), the SQLite
`items` table as an association list where `INSERT` is a plain cons guarded
by a primary-key lookup (a conflicting insert fails, as SQLite errors on a
PRIMARY KEY violation), and wall-clock instants as explicit `Int` unix
timestamps threaded through the durable operations.  The SHA-256 digest
(Go standard library, not part of this repository) is abstracted as a
function parameter `H` over byte lists; the volatile `Key` is the digest of
`seed ++ ciphertext bytes`.  Pending `time.AfterFunc` timers are embedded as
a list of `(timerId, key, ttl)` triples; a timer may fire at any moment
(firing is a nondeterministic step), which over-approximates the real
scheduler and so only strengthens the invariants proved over all traces.
-/

namespace Poof

/-! ### Association lists with decidable keys (embedding Go maps / SQL tables) -/

section AssocList

variable {α : Type} {β : Type} [DecidableEq α]

/-- Lookup of the first binding of key `k`, the read of `kv.data[k]` /
`SELECT ... WHERE key = ?`. -/
def alookup (k : α) : List (α × β) → Option β
  | [] => none
  | p :: ps => if p.1 = k then some p.2 else alookup k ps

/-- Remove every binding of key `k`, the effect of Go `delete(m, k)` /
`DELETE ... WHERE key = ?` on a key-unique list. -/
def aerase (k : α) (l : List (α × β)) : List (α × β) :=
  l.filter (fun p => decide (p.1 ≠ k))

/-- Go map assignment `m[k] = v`: replaces any existing binding of `k`. -/
def ainsert (k : α) (v : β) (l : List (α × β)) : List (α × β) :=
  (k, v) :: aerase k l

/-- The keys of an association list. -/
def keysOf (l : List (α × β)) : List α := l.map Prod.fst

/-- Key-uniqueness, the defining property of a Go map / a primary-key table. -/
def NodupKeys (l : List (α × β)) : Prop := (keysOf l).Nodup

end AssocList

/-- The bytes of a Go string, as Go's `[]byte(s)` conversion used by
`h.Write([]byte(s))`; characters stand in for bytes. -/
def strBytes (s : String) : List Nat := s.data.map Char.toNat

/-! ### Volatile backend: `Store` of `poof.go` -/

/-- An entry of the volatile store (`Entry` in `poof.go`).  The
`CancelEviction` closure captures the `time.AfterFunc` timer created by the
inserting `Set`; it is embedded as the identity `timerId` of that timer. -/
structure VEntry where
  enc : String
  hash : String
  timerId : Nat
deriving DecidableEq

/-- The volatile `Store` of `poof.go`.  `timers` holds the pending
`time.AfterFunc` timers as `(timerId, key, ttl)`; `nextTimer` is the next
fresh timer identity. -/
structure Store where
  seed : List Nat
  sizeLimit : Int
  data : List (List Nat × VEntry)
  timers : List (Nat × List Nat × Int)
  nextTimer : Nat
  added : Nat
  expired : Nat
  burned : Nat
deriving DecidableEq

/-- Constructor `NewStore(max)`: fresh volatile store with the given random seed. -/
def NewStore (seed : List Nat) (max : Int) : Store :=
  { seed := seed, sizeLimit := max, data := [], timers := [], nextTimer := 0,
    added := 0, expired := 0, burned := 0 }

/-- Digest `Store.sha`: the content address `H(seed || ciphertext)`, where `H`
abstracts the SHA-256 digest of the Go standard library. -/
def Store.sha (H : List Nat → List Nat) (kv : Store) (s : String) : List Nat :=
  H (kv.seed ++ strBytes s)

/-- Removal `Store.delete(k, isBurn)`: remove the key and count the removal as a
burn or an expiry. -/
def Store.delete (kv : Store) (k : List Nat) (isBurn : Bool) : Store :=
  { kv with
    data := aerase k kv.data
    burned := cond isBurn (kv.burned + 1) kv.burned
    expired := cond isBurn kv.expired (kv.expired + 1) }

/-- Insertion `Store.Set(enc, hash, ttl)`: reject when a positive size limit is
reached, otherwise schedule an eviction timer, store the entry under the
content address and bump `added`. -/
def Store.Set (H : List Nat → List Nat) (kv : Store) (enc hash : String) (ttl : Int) :
    List Nat × Bool × Store :=
  if 0 < kv.sizeLimit ∧ kv.sizeLimit ≤ (kv.data.length : Int) then
    (Store.sha H kv enc, false, kv)
  else
    (Store.sha H kv enc, true,
      { kv with
        data := ainsert (Store.sha H kv enc) ⟨enc, hash, kv.nextTimer⟩ kv.data
        timers := (kv.nextTimer, Store.sha H kv enc, ttl) :: kv.timers
        nextTimer := kv.nextTimer + 1
        added := kv.added + 1 })

/-- Lookup `Store.Get(k, hash)`: miss or hash mismatch return `("", false)` with no
mutation; on a match the entry's eviction timer is cancelled and the entry
deleted as a burn, returning its ciphertext. -/
def Store.Get (kv : Store) (k : List Nat) (hash : String) : String × Bool × Store :=
  match alookup k kv.data with
  | none => ("", false, kv)
  | some v =>
    if v.hash = hash then
      (v.enc, true, Store.delete { kv with timers := aerase v.timerId kv.timers } k true)
    else ("", false, kv)

/-- Snapshot `Store.Metrics()`: `(size, added, expired, burned)`. -/
def Store.Metrics (kv : Store) : Nat × Nat × Nat × Nat :=
  (kv.data.length, kv.added, kv.expired, kv.burned)

/-- A pending eviction timer fires: it is consumed and `delete(key, false)`
runs, removing whatever entry currently sits at that key and counting an
expiry. -/
def Store.fireTimer (kv : Store) (tid : Nat) : Store :=
  match alookup tid kv.timers with
  | none => kv
  | some kt => Store.delete { kv with timers := aerase tid kv.timers } kt.1 false

/-- One step of the volatile store: any `Set`, any `Get`, or any pending
eviction timer firing. -/
inductive VStep (H : List Nat → List Nat) : Store → Store → Prop
  | set (s : Store) (enc hash : String) (ttl : Int) :
      VStep H s (Store.Set H s enc hash ttl).2.2
  | get (s : Store) (k : List Nat) (hash : String) :
      VStep H s (Store.Get s k hash).2.2
  | fire (s : Store) (tid : Nat) :
      VStep H s (Store.fireTimer s tid)

/-- A step that never creates a fresh entry under the identifier `k`
(successful `Set` steps with content address `k` are excluded). -/
inductive AvoidStep (H : List Nat → List Nat) (k : List Nat) : Store → Store → Prop
  | set (s : Store) (enc hash : String) (ttl : Int)
      (hne : (Store.Set H s enc hash ttl).2.1 = true → Store.sha H s enc ≠ k) :
      AvoidStep H k s (Store.Set H s enc hash ttl).2.2
  | get (s : Store) (k2 : List Nat) (hash : String) :
      AvoidStep H k s (Store.Get s k2 hash).2.2
  | fire (s : Store) (tid : Nat) :
      AvoidStep H k s (Store.fireTimer s tid)

/-- A step in which a successful `Set` never overwrites a live entry (its
content address is not a live key): the collision-free fragment of `VStep`. -/
inductive NCStep (H : List Nat → List Nat) : Store → Store → Prop
  | set (s : Store) (enc hash : String) (ttl : Int)
      (hfresh : (Store.Set H s enc hash ttl).2.1 = true →
        alookup (Store.sha H s enc) s.data = none) :
      NCStep H s (Store.Set H s enc hash ttl).2.2
  | get (s : Store) (k : List Nat) (hash : String) :
      NCStep H s (Store.Get s k hash).2.2
  | fire (s : Store) (tid : Nat) :
      NCStep H s (Store.fireTimer s tid)

/-- The inductive invariant of the collision-free volatile store: the
counters balance, keys and timer identities are unique, pending timers and
live entries are in bijection, and timer identities are bounded by
`nextTimer`. -/
def Inv (s : Store) : Prop :=
  s.added = s.burned + s.expired + s.data.length
  ∧ NodupKeys s.data
  ∧ NodupKeys s.timers
  ∧ (∀ t ∈ s.timers, ∃ e, alookup t.2.1 s.data = some e ∧ e.timerId = t.1)
  ∧ (∀ p ∈ s.data, ∃ ttl, ((p.2).timerId, p.1, ttl) ∈ s.timers)
  ∧ (∀ t ∈ s.timers, t.1 < s.nextTimer)

/-! ### Durable backend: `PersistentStore` -/

/-- Modelled from the spec: `encoding/base64.RawURLEncoding` (Go standard
library, not part of this repository) is an injective textual encoding of
byte strings with a decoder; it is embedded as the character encoding of the
byte values, which is injective on byte lists and decoded by `b64d`. -/
def b64e (b : List Nat) : String := String.mk (b.map Char.ofNat)

/-- Modelled from the spec: the decoder matching `b64e`
(`base64.RawURLEncoding.DecodeString`); decoding never fails on strings
produced by `b64e`. -/
def b64d (s : String) : Option (List Nat) := some (s.data.map Char.toNat)

/-- A row of the `items` table: `(enc, hash, expiry)` with the key kept as
the association-list key. -/
structure Item where
  enc : String
  hash : String
  expiry : Int
deriving DecidableEq

/-- The backing SQLite database: the single `meta` row (`seed` column,
which is `NULL`-able and absent before the first boot, plus the counters)
and the `items` table. -/
structure DB where
  seedRow : Option String
  added : Nat
  expired : Nat
  burned : Nat
  items : List (List Nat × Item)
deriving DecidableEq

/-- The `evictionQuery` sweep: delete every row whose `expiry < now` and add
the affected row count to `expired`. -/
def DB.evict (now : Int) (db : DB) : DB :=
  { db with
    items := db.items.filter (fun p => !decide (p.2.expiry < now))
    expired := db.expired + (db.items.filter (fun p => decide (p.2.expiry < now))).length }

/-- Initialisation `initDB`: create tables, then read the persisted seed.  When the `meta`
row is absent a fresh random seed (`rngSeed`, the output of `rand.Read`) is
generated and persisted — but, mirroring the Go source faithfully, the inner
`seed := make([]byte, 16)` shadows the named return value, so the function
returns the untouched (nil, here empty) named return rather than the seed it
just persisted.  When a row is present the seed is decoded from base64. -/
def initDB (rngSeed : List Nat) (db : DB) : Option (List Nat × DB) :=
  match db.seedRow with
  | none => some ([], { db with seedRow := some (b64e rngSeed) })
  | some str => (b64d str).map (fun s => (s, db))

/-- The in-memory handle of the durable backend. -/
structure PStore where
  db : DB
  seed : List Nat
  maxItems : Nat
deriving DecidableEq

/-- Constructor `NewPersistentStore(maxItems, dsn)`: open the database, run `initDB`,
and start the sweep goroutine, whose body evicts once immediately. -/
def NewPersistentStore (rngSeed : List Nat) (maxItems : Nat) (db : DB) (now : Int) :
    Option PStore :=
  (initDB rngSeed db).map (fun p => { db := DB.evict now p.2, seed := p.1, maxItems := maxItems })

/-- The content address computed by `PersistentStore.Set`:
`H(seed || ciphertext)`. -/
def PStore.sha (H : List Nat → List Nat) (ps : PStore) (s : String) : List Nat :=
  H (ps.seed ++ strBytes s)

/-- Insertion `PersistentStore.Set`: count the rows and reject at or over `maxItems`;
otherwise `INSERT` the row — which fails (returning `ok=false` with no
mutation) when the key already exists, `key` being the PRIMARY KEY — and on
success bump `added`. -/
def PStore.Set (H : List Nat → List Nat) (now : Int) (ps : PStore) (enc hash : String)
    (ttl : Int) : List Nat × Bool × PStore :=
  if ps.maxItems ≤ ps.db.items.length then
    (PStore.sha H ps enc, false, ps)
  else
    match alookup (PStore.sha H ps enc) ps.db.items with
    | some _ => (PStore.sha H ps enc, false, ps)
    | none =>
      (PStore.sha H ps enc, true,
        { ps with db := { ps.db with
            items := (PStore.sha H ps enc, ⟨enc, hash, now + ttl⟩) :: ps.db.items
            added := ps.db.added + 1 } })

/-- Lookup `PersistentStore.Get`: a single `DELETE ... WHERE key = ? AND hash = ?
RETURNING enc, expiry`; no matching row returns `("", false)` with no
mutation.  When a row is returned it is already deleted; the expiry is then
checked in memory — past expiry counts as `expired` and returns `ok=false`,
otherwise `burned` is bumped and the ciphertext returned. -/
def PStore.Get (now : Int) (ps : PStore) (k : List Nat) (hash : String) :
    String × Bool × PStore :=
  match alookup k ps.db.items with
  | none => ("", false, ps)
  | some item =>
    if item.hash = hash then
      if now > item.expiry then
        ("", false, { ps with db := { ps.db with
            items := aerase k ps.db.items
            expired := ps.db.expired + 1 } })
      else
        (item.enc, true, { ps with db := { ps.db with
            items := aerase k ps.db.items
            burned := ps.db.burned + 1 } })
    else ("", false, ps)

/-- Snapshot `PersistentStore.Metrics`: `(size, added, expired, burned)` from the
`readMetrics` query. -/
def PStore.Metrics (ps : PStore) : Nat × Nat × Nat × Nat :=
  (ps.db.items.length, ps.db.added, ps.db.expired, ps.db.burned)

/-- Shutdown `PersistentStore.Close`: stop the sweep ticker and run one final
eviction pass. -/
def PStore.Close (now : Int) (ps : PStore) : PStore :=
  { ps with db := DB.evict now ps.db }

/-- A durable-backend step that never creates a fresh row under the
identifier `k`. -/
inductive PAvoidStep (H : List Nat → List Nat) (k : List Nat) : PStore → PStore → Prop
  | set (ps : PStore) (now : Int) (enc hash : String) (ttl : Int)
      (hne : (PStore.Set H now ps enc hash ttl).2.1 = true → PStore.sha H ps enc ≠ k) :
      PAvoidStep H k ps (PStore.Set H now ps enc hash ttl).2.2
  | get (ps : PStore) (now : Int) (k2 : List Nat) (hash : String) :
      PAvoidStep H k ps (PStore.Get now ps k2 hash).2.2
  | close (ps : PStore) (now : Int) :
      PAvoidStep H k ps (PStore.Close now ps)

/-! ### Concrete instances used by counterexamples and witnesses -/

/-- A concrete digest function (the identity on byte lists) standing in for
SHA-256 in concrete evaluations. -/
def H0 : List Nat → List Nat := fun b => b

/-- A concrete digest function with fixed 32-byte output width. -/
def H32 : List Nat → List Nat := fun _ => List.replicate 32 0

/-- A volatile store holding one live entry, its eviction timer pending. -/
def demoStore : Store :=
  { seed := [], sizeLimit := 0, data := [([97], ⟨"e", "h", 0⟩)],
    timers := [(0, [97], 60)], nextTimer := 1, added := 1, expired := 0, burned := 0 }

/-- A freshly initialised durable store with room for ten items. -/
def P0 : PStore :=
  { db := { seedRow := some "s", added := 0, expired := 0, burned := 0, items := [] }
    seed := []
    maxItems := 10 }

/-- An empty backing database, as before the very first boot. -/
def freshDB : DB := { seedRow := none, added := 0, expired := 0, burned := 0, items := [] }

/-- The store handle produced by the very first boot against `freshDB` with
`rand.Read` output `[7]`: the generated seed is persisted, yet the in-memory
seed is the empty (nil) named return. -/
def P1 : PStore :=
  { db := { seedRow := some (b64e [7]), added := 0, expired := 0, burned := 0, items := [] }
    seed := []
    maxItems := 10 }

/-- The backing database after the first boot stored one secret and shut
down. -/
def bootDB : DB := (PStore.Close 0 (PStore.Set H0 0 P1 "a" "h" 100).2.2).db

/-- The store handle produced by reopening `bootDB`: now the seed really is
the persisted `[7]`. -/
def P3 : PStore :=
  { db := { seedRow := some (b64e [7]), added := 1, expired := 0, burned := 0
            items := [([97], ⟨"a", "h", 100⟩)] }
    seed := [7]
    maxItems := 10 }

/-! ### Properties of the association-list primitives -/

section AssocListLemmas

variable {α : Type} {β : Type} [DecidableEq α] {k k2 : α} {v : β} {l : List (α × β)}

theorem mem_aerase {p : α × β} : p ∈ aerase k l ↔ p ∈ l ∧ p.1 ≠ k := by
  simp [aerase, List.mem_filter]

theorem aerase_cons (p : α × β) :
    aerase k (p :: l) = if p.1 = k then aerase k l else p :: aerase k l := by
  by_cases hp : p.1 = k <;> simp [aerase, hp]

theorem aerase_sublist (k : α) (l : List (α × β)) : (aerase k l).Sublist l :=
  List.filter_sublist l

theorem nodupKeys_cons {p : α × β} {ps : List (α × β)} (hn : NodupKeys (p :: ps)) :
    p.1 ∉ keysOf ps ∧ NodupKeys ps := by
  simpa [NodupKeys, keysOf, List.nodup_cons] using hn

theorem nodupKeys_aerase (k : α) (h : NodupKeys l) : NodupKeys (aerase k l) :=
  List.Nodup.sublist ((aerase_sublist k l).map Prod.fst) h

theorem alookup_none_iff : alookup k l = none ↔ k ∉ keysOf l := by
  induction l with
  | nil => simp [alookup, keysOf]
  | cons p ps ih =>
    by_cases h : p.1 = k
    · simp [alookup, h, keysOf]
    · simp [alookup, h, keysOf, ih, Ne.symm h]

theorem alookup_mem (h : alookup k l = some v) : (k, v) ∈ l := by
  induction l with
  | nil => simp [alookup] at h
  | cons p ps ih =>
    obtain ⟨a, b⟩ := p
    by_cases hp : a = k
    · subst hp
      simp [alookup] at h
      subst h
      exact List.mem_cons_self _ _
    · simp [alookup, hp] at h
      exact List.mem_cons_of_mem _ (ih h)

theorem alookup_mem_keys (h : alookup k l = some v) : k ∈ keysOf l := by
  by_contra hk
  have hnone := alookup_none_iff.mpr hk
  rw [hnone] at h
  exact Option.noConfusion h

theorem mem_alookup (hn : NodupKeys l) (h : (k, v) ∈ l) : alookup k l = some v := by
  induction l with
  | nil => simp at h
  | cons p ps ih =>
    obtain ⟨hn1, hn2⟩ := nodupKeys_cons hn
    rcases List.mem_cons.mp h with heq | hmem
    · subst heq
      simp [alookup]
    · by_cases hp : p.1 = k
      · exact absurd (List.mem_map_of_mem Prod.fst hmem) (hp ▸ hn1)
      · simp only [alookup, hp, if_false]
        exact ih hn2 hmem

theorem alookup_aerase_self : alookup k (aerase k l) = none := by
  rw [alookup_none_iff]
  intro hmem
  obtain ⟨p, hp, hpk⟩ := List.mem_map.mp hmem
  exact (mem_aerase.mp hp).2 hpk

theorem alookup_aerase_ne (h : k2 ≠ k) : alookup k2 (aerase k l) = alookup k2 l := by
  induction l with
  | nil => rfl
  | cons p ps ih =>
    rw [aerase_cons]
    by_cases hp : p.1 = k
    · rw [if_pos hp, ih]
      have hne : p.1 ≠ k2 := by rw [hp]; exact Ne.symm h
      simp [alookup, hne]
    · rw [if_neg hp]
      simp [alookup, ih]

theorem aerase_of_alookup_none (h : alookup k l = none) : aerase k l = l := by
  induction l with
  | nil => rfl
  | cons p ps ih =>
    rw [aerase_cons]
    by_cases hp : p.1 = k
    · exfalso
      simp [alookup, hp] at h
    · rw [if_neg hp]
      have h2 : alookup k ps = none := by simpa [alookup, hp] using h
      rw [ih h2]

theorem length_aerase_of_mem (hn : NodupKeys l) (h : k ∈ keysOf l) :
    (aerase k l).length + 1 = l.length := by
  induction l with
  | nil => simp [keysOf] at h
  | cons p ps ih =>
    obtain ⟨hn1, hn2⟩ := nodupKeys_cons hn
    rw [aerase_cons]
    by_cases hp : p.1 = k
    · rw [if_pos hp]
      have hout : aerase k ps = ps :=
        aerase_of_alookup_none (alookup_none_iff.mpr (hp ▸ hn1))
      rw [hout]
      simp
    · rw [if_neg hp]
      have hk : k ∈ keysOf ps := by
        have h' : k = p.1 ∨ k ∈ keysOf ps := by simpa [keysOf] using h
        rcases h' with h' | h'
        · exact absurd h'.symm hp
        · exact h'
      have := ih hn2 hk
      simp only [List.length_cons]
      omega

theorem nodupKeys_ainsert (hn : NodupKeys l) : NodupKeys (ainsert k v l) := by
  have h1 : k ∉ keysOf (aerase k l) := alookup_none_iff.mp alookup_aerase_self
  have h2 : NodupKeys (aerase k l) := nodupKeys_aerase k hn
  simp only [ainsert, NodupKeys, keysOf, List.map_cons, List.nodup_cons]
  exact ⟨h1, h2⟩

theorem alookup_ainsert_self : alookup k (ainsert k v l) = some v := by
  simp [ainsert, alookup]

theorem alookup_ainsert_ne (h : k2 ≠ k) (v : β) :
    alookup k2 (ainsert k v l) = alookup k2 l := by
  have hne : k ≠ k2 := Ne.symm h
  simp [ainsert, alookup, hne, alookup_aerase_ne h]

theorem alookup_aerase_none (h : alookup k2 l = none) :
    alookup k2 (aerase k l) = none := by
  by_cases hk : k = k2
  · subst hk
    exact alookup_aerase_self
  · rw [alookup_aerase_ne (Ne.symm hk)]
    exact h

theorem alookup_filter_none {f : α × β → Bool} (h : alookup k l = none) :
    alookup k (l.filter f) = none := by
  rw [alookup_none_iff] at h ⊢
  intro hmem
  obtain ⟨p, hp, hpk⟩ := List.mem_map.mp hmem
  exact h (hpk ▸ List.mem_map_of_mem Prod.fst (List.mem_of_mem_filter hp))

theorem nodup_value_unique {v1 v2 : β} (hn : NodupKeys l) (h1 : (k, v1) ∈ l)
    (h2 : (k, v2) ∈ l) : v1 = v2 := by
  have e1 := mem_alookup hn h1
  have e2 := mem_alookup hn h2
  rw [e1] at e2
  exact Option.some.inj e2

end AssocListLemmas

/-! ### Step lemmas for the volatile store -/

theorem Store.Set_seed (H : List Nat → List Nat) (s : Store) (enc hash : String) (ttl : Int) :
    (Store.Set H s enc hash ttl).2.2.seed = s.seed := by
  rw [Store.Set]
  split <;> rfl

theorem get_miss_volatile {s : Store} {k : List Nat} (h : alookup k s.data = none)
    (hash : String) : Store.Get s k hash = ("", false, s) := by
  simp [Store.Get, h]

theorem avoidStep_keeps_absent {H : List Nat → List Nat} {k : List Nat} {s s' : Store}
    (hstep : AvoidStep H k s s') (h : alookup k s.data = none) :
    alookup k s'.data = none := by
  cases hstep with
  | set enc hash ttl hne =>
    by_cases hcap : 0 < s.sizeLimit ∧ s.sizeLimit ≤ (s.data.length : Int)
    · simpa [Store.Set, hcap] using h
    · have hkey : Store.sha H s enc ≠ k := hne (by simp [Store.Set, hcap])
      simp only [Store.Set, hcap, if_false]
      rw [alookup_ainsert_ne (Ne.symm hkey)]
      exact h
  | get k2 hash =>
    cases hl : alookup k2 s.data with
    | none => simpa [Store.Get, hl] using h
    | some v =>
      by_cases hh : v.hash = hash
      · simp only [Store.Get, hl, hh, if_true, Store.delete]
        exact alookup_aerase_none h
      · simpa [Store.Get, hl, hh] using h
  | fire tid =>
    cases ht : alookup tid s.timers with
    | none => simpa [Store.fireTimer, ht] using h
    | some kt =>
      simp only [Store.fireTimer, ht, Store.delete]
      exact alookup_aerase_none h

theorem avoidReach_preserves_none {H : List Nat → List Nat} {k : List Nat} {s s' : Store}
    (hr : Relation.ReflTransGen (AvoidStep H k) s s') (h : alookup k s.data = none) :
    alookup k s'.data = none := by
  induction hr with
  | refl => exact h
  | tail _ hstep ih => exact avoidStep_keeps_absent hstep ih

/-! ### The counter invariant of the collision-free volatile store -/

theorem Inv_NewStore (seed : List Nat) (max : Int) : Inv (NewStore seed max) := by
  refine ⟨rfl, ?_, ?_, ?_, ?_, ?_⟩ <;> simp [NewStore, NodupKeys, keysOf]

theorem Inv_set (H : List Nat → List Nat) (s : Store) (enc hash : String) (ttl : Int)
    (hfresh : (Store.Set H s enc hash ttl).2.1 = true →
      alookup (Store.sha H s enc) s.data = none)
    (hInv : Inv s) : Inv (Store.Set H s enc hash ttl).2.2 := by
  by_cases hcap : 0 < s.sizeLimit ∧ s.sizeLimit ≤ (s.data.length : Int)
  · simpa [Store.Set, hcap] using hInv
  · have hk : alookup (Store.sha H s enc) s.data = none := hfresh (by simp [Store.Set, hcap])
    obtain ⟨hbal, hnd, hnt, htd, hdt, hbound⟩ := hInv
    have hins : ainsert (Store.sha H s enc) (⟨enc, hash, s.nextTimer⟩ : VEntry) s.data
        = (Store.sha H s enc, (⟨enc, hash, s.nextTimer⟩ : VEntry)) :: s.data := by
      rw [ainsert, aerase_of_alookup_none hk]
    have hfreshT : s.nextTimer ∉ keysOf s.timers := by
      intro hmem
      obtain ⟨t, ht, htid⟩ := List.mem_map.mp hmem
      exact absurd (htid ▸ hbound t ht) (lt_irrefl _)
    simp only [Store.Set, hcap, if_false]
    refine ⟨?_, ?_, ?_, ?_, ?_, ?_⟩
    · rw [hins]
      simp only [List.length_cons]
      omega
    · exact nodupKeys_ainsert hnd
    · simp only [NodupKeys, keysOf, List.map_cons, List.nodup_cons]
      exact ⟨hfreshT, hnt⟩
    · intro t ht
      rcases List.mem_cons.mp ht with heq | hmem
      · subst heq
        exact ⟨⟨enc, hash, s.nextTimer⟩, alookup_ainsert_self, rfl⟩
      · obtain ⟨e', he', hetid⟩ := htd t hmem
        have hne : t.2.1 ≠ Store.sha H s enc := by
          intro heq2
          rw [heq2, hk] at he'
          exact Option.noConfusion he'
        refine ⟨e', ?_, hetid⟩
        rw [alookup_ainsert_ne hne]
        exact he'
    · intro p hp
      rw [hins] at hp
      rcases List.mem_cons.mp hp with heq | hmem
      · subst heq
        exact ⟨ttl, List.mem_cons_self _ _⟩
      · obtain ⟨ttl', hpt⟩ := hdt p hmem
        exact ⟨ttl', List.mem_cons_of_mem _ hpt⟩
    · intro t ht
      rcases List.mem_cons.mp ht with heq | hmem
      · subst heq
        exact Nat.lt_succ_self _
      · exact Nat.lt_succ_of_lt (hbound t hmem)

theorem Inv_get (s : Store) (k : List Nat) (hash : String) (hInv : Inv s) :
    Inv (Store.Get s k hash).2.2 := by
  cases hl : alookup k s.data with
  | none => simpa [Store.Get, hl] using hInv
  | some v =>
    by_cases hh : v.hash = hash
    · obtain ⟨hbal, hnd, hnt, htd, hdt, hbound⟩ := hInv
      have hmemk : k ∈ keysOf s.data := alookup_mem_keys hl
      have hlen := length_aerase_of_mem hnd hmemk
      have hkv : (k, v) ∈ s.data := alookup_mem hl
      obtain ⟨ttlv, hvt⟩ := hdt (k, v) hkv
      simp only [Store.Get, hl, hh, if_true, Store.delete, cond_true]
      refine ⟨?_, ?_, ?_, ?_, ?_, ?_⟩
      · show s.added = s.burned + 1 + s.expired + (aerase k s.data).length
        omega
      · exact nodupKeys_aerase _ hnd
      · exact nodupKeys_aerase _ hnt
      · intro t ht
        obtain ⟨ht', htne⟩ := mem_aerase.mp ht
        obtain ⟨e', he', hetid⟩ := htd t ht'
        have hkne : t.2.1 ≠ k := by
          intro heq
          rw [heq, hl] at he'
          have hev : e' = v := (Option.some.inj he').symm
          exact htne (by rw [← hetid, hev])
        refine ⟨e', ?_, hetid⟩
        rw [alookup_aerase_ne hkne]
        exact he'
      · intro p hp
        obtain ⟨hp', hpk⟩ := mem_aerase.mp hp
        obtain ⟨ttl', hpt⟩ := hdt p hp'
        refine ⟨ttl', mem_aerase.mpr ⟨hpt, ?_⟩⟩
        intro heq
        have heq' : p.2.timerId = v.timerId := heq
        have huniq := nodup_value_unique hnt (heq' ▸ hpt) hvt
        exact hpk (congrArg Prod.fst huniq)
      · intro t ht
        exact hbound t (mem_aerase.mp ht).1
    · simpa [Store.Get, hl, hh] using hInv

theorem Inv_fire (s : Store) (tid : Nat) (hInv : Inv s) : Inv (Store.fireTimer s tid) := by
  cases ht : alookup tid s.timers with
  | none => simpa [Store.fireTimer, ht] using hInv
  | some kt =>
    obtain ⟨hbal, hnd, hnt, htd, hdt, hbound⟩ := hInv
    have htm : (tid, kt) ∈ s.timers := alookup_mem ht
    obtain ⟨e, he, hetid⟩ := htd (tid, kt) htm
    have hmemk : kt.1 ∈ keysOf s.data := alookup_mem_keys he
    have hlen := length_aerase_of_mem hnd hmemk
    simp only [Store.fireTimer, ht, Store.delete, cond_false]
    refine ⟨?_, ?_, ?_, ?_, ?_, ?_⟩
    · show s.added = s.burned + (s.expired + 1) + (aerase kt.1 s.data).length
      omega
    · exact nodupKeys_aerase _ hnd
    · exact nodupKeys_aerase _ hnt
    · intro t ht2
      obtain ⟨ht', htne⟩ := mem_aerase.mp ht2
      obtain ⟨e', he', hetid'⟩ := htd t ht'
      have hkne : t.2.1 ≠ kt.1 := by
        intro heq
        rw [heq, he] at he'
        have hee : e' = e := (Option.some.inj he').symm
        exact htne (by rw [← hetid', hee, hetid])
      refine ⟨e', ?_, hetid'⟩
      rw [alookup_aerase_ne hkne]
      exact he'
    · intro p hp
      obtain ⟨hp', hpk⟩ := mem_aerase.mp hp
      obtain ⟨ttl', hpt⟩ := hdt p hp'
      refine ⟨ttl', mem_aerase.mpr ⟨hpt, ?_⟩⟩
      intro heq
      have heq' : p.2.timerId = tid := heq
      have huniq := nodup_value_unique hnt (heq' ▸ hpt) htm
      exact hpk (congrArg Prod.fst huniq)
    · intro t ht2
      exact hbound t (mem_aerase.mp ht2).1

theorem NCStep.preserves_Inv {H : List Nat → List Nat} {s s' : Store}
    (hstep : NCStep H s s') (h : Inv s) : Inv s' := by
  cases hstep with
  | set enc hash ttl hfresh => exact Inv_set H s enc hash ttl hfresh h
  | get k hash => exact Inv_get s k hash h
  | fire tid => exact Inv_fire s tid h

theorem ncReach_preserves_Inv {H : List Nat → List Nat} {s s' : Store}
    (hr : Relation.ReflTransGen (NCStep H) s s') (h : Inv s) : Inv s' := by
  induction hr with
  | refl => exact h
  | tail _ hstep ih => exact NCStep.preserves_Inv hstep ih

/-! ### Step lemmas for the durable store -/

theorem get_miss_durable {now : Int} {ps : PStore} {k : List Nat}
    (h : alookup k ps.db.items = none) (hash : String) :
    PStore.Get now ps k hash = ("", false, ps) := by
  simp [PStore.Get, h]

theorem pAvoidStep_keeps_absent {H : List Nat → List Nat} {k : List Nat} {ps ps' : PStore}
    (hstep : PAvoidStep H k ps ps') (h : alookup k ps.db.items = none) :
    alookup k ps'.db.items = none := by
  cases hstep with
  | set now enc hash ttl hne =>
    by_cases hcap : ps.maxItems ≤ ps.db.items.length
    · simpa [PStore.Set, hcap] using h
    · cases hl : alookup (PStore.sha H ps enc) ps.db.items with
      | some it => simpa [PStore.Set, hcap, hl] using h
      | none =>
        have hkey : PStore.sha H ps enc ≠ k := hne (by simp [PStore.Set, hcap, hl])
        simp only [PStore.Set, hcap, hl, if_false]
        simp [alookup, hkey, h]
  | get now k2 hash =>
    cases hl : alookup k2 ps.db.items with
    | none => simpa [PStore.Get, hl] using h
    | some it =>
      by_cases hh : it.hash = hash
      · by_cases hex : now > it.expiry
        · simp only [PStore.Get, hl]
          simp only [hh, if_true, hex]
          exact alookup_aerase_none h
        · simp only [PStore.Get, hl]
          simp only [hh, if_true, hex, if_false]
          exact alookup_aerase_none h
      · simpa [PStore.Get, hl, hh] using h
  | close now =>
    simp only [PStore.Close, DB.evict]
    exact alookup_filter_none h

theorem pAvoidReach_preserves_none {H : List Nat → List Nat} {k : List Nat} {ps ps' : PStore}
    (hr : Relation.ReflTransGen (PAvoidStep H k) ps ps') (h : alookup k ps.db.items = none) :
    alookup k ps'.db.items = none := by
  induction hr with
  | refl => exact h
  | tail _ hstep ih => exact pAvoidStep_keeps_absent hstep ih

theorem pset_fst (H : List Nat → List Nat) (now : Int) (ps : PStore) (enc hh : String)
    (tt : Int) : (PStore.Set H now ps enc hh tt).1 = PStore.sha H ps enc := by
  rw [PStore.Set]
  split
  · rfl
  · split <;> rfl

theorem pset_keeps_seed (H : List Nat → List Nat) (now : Int) (ps : PStore) (enc hh : String)
    (tt : Int) : (PStore.Set H now ps enc hh tt).2.2.seed = ps.seed := by
  rw [PStore.Set]
  split
  · rfl
  · split <;> rfl

/-! ### The claims -/

/-- C1.  At-most-once release: when `Get` returns `ok=true` the entry is
removed from the resulting state, and every later `Get` for that identifier
returns `ok=false` along any sequence of steps that contains no successful
`Set` re-creating an entry under the same identifier — for the volatile and
for the durable backend. -/
theorem get_burn_at_most_once (H : List Nat → List Nat) (s : Store) (k : List Nat)
    (hash : String) (hok : (Store.Get s k hash).2.1 = true) :
    alookup k (Store.Get s k hash).2.2.data = none
    ∧ (∀ s', Relation.ReflTransGen (AvoidStep H k) (Store.Get s k hash).2.2 s' →
        ∀ h2, (Store.Get s' k h2).2.1 = false)
    ∧ (∀ (now : Int) (ps : PStore), (PStore.Get now ps k hash).2.1 = true →
        alookup k (PStore.Get now ps k hash).2.2.db.items = none
        ∧ ∀ ps', Relation.ReflTransGen (PAvoidStep H k) (PStore.Get now ps k hash).2.2 ps' →
            ∀ (now2 : Int) (h2 : String), (PStore.Get now2 ps' k h2).2.1 = false) := by
  have hdata : (Store.Get s k hash).2.2.data = aerase k s.data := by
    cases hl : alookup k s.data with
    | none =>
      rw [get_miss_volatile hl] at hok
      simp at hok
    | some v =>
      by_cases hh : v.hash = hash
      · simp [Store.Get, hl, hh, Store.delete]
      · simp [Store.Get, hl, hh] at hok
  refine ⟨?_, ?_, ?_⟩
  · rw [hdata]
    exact alookup_aerase_self
  · intro s' hr h2
    have h0 : alookup k (Store.Get s k hash).2.2.data = none := by
      rw [hdata]
      exact alookup_aerase_self
    rw [get_miss_volatile (avoidReach_preserves_none hr h0) h2]
  · intro now ps hpok
    have hpdata : (PStore.Get now ps k hash).2.2.db.items = aerase k ps.db.items := by
      cases hl : alookup k ps.db.items with
      | none =>
        rw [get_miss_durable hl] at hpok
        simp at hpok
      | some it =>
        by_cases hh : it.hash = hash
        · by_cases hex : now > it.expiry
          · simp [PStore.Get, hl, hh, hex] at hpok
          · simp [PStore.Get, hl, hh, hex]
        · simp [PStore.Get, hl, hh] at hpok
    refine ⟨?_, ?_⟩
    · rw [hpdata]
      exact alookup_aerase_self
    · intro ps' hr now2 h2
      have h0 : alookup k (PStore.Get now ps k hash).2.2.db.items = none := by
        rw [hpdata]
        exact alookup_aerase_self
      rw [get_miss_durable (pAvoidReach_preserves_none hr h0) h2]

/-- Witness for C1: burning the demo entry removes it and no later `Get`
can release it again. -/
theorem get_burn_at_most_once_w :
    alookup [97] (Store.Get demoStore [97] "h").2.2.data = none
    ∧ (∀ s', Relation.ReflTransGen (AvoidStep H0 [97]) (Store.Get demoStore [97] "h").2.2 s' →
        ∀ h2, (Store.Get s' [97] h2).2.1 = false) := by
  have h := get_burn_at_most_once H0 demoStore [97] "h" (by decide)
  exact ⟨h.1, h.2.1⟩

/-- C2.  Wrong hash does not burn: an absent identifier or a mismatched
passphrase hash makes `Get` return `("", false)` with the state unchanged
(both backends), and after such a failed guess the correct hash still
succeeds. -/
theorem get_wrong_hash_no_burn (s : Store) (k : List Nat) :
    (alookup k s.data = none → ∀ h, Store.Get s k h = ("", false, s))
    ∧ (∀ (v : VEntry) (w : String), alookup k s.data = some v → v.hash ≠ w →
        Store.Get s k w = ("", false, s) ∧ (Store.Get s k v.hash).2.1 = true)
    ∧ (∀ (now : Int) (ps : PStore), alookup k ps.db.items = none →
        ∀ h, PStore.Get now ps k h = ("", false, ps))
    ∧ (∀ (now : Int) (ps : PStore) (it : Item) (w : String),
        alookup k ps.db.items = some it → it.hash ≠ w →
        PStore.Get now ps k w = ("", false, ps)
        ∧ (¬ now > it.expiry →
            (PStore.Get now ps k it.hash).1 = it.enc
            ∧ (PStore.Get now ps k it.hash).2.1 = true)) := by
  refine ⟨?_, ?_, ?_, ?_⟩
  · intro hn h
    exact get_miss_volatile hn h
  · intro v w hl hw
    constructor
    · simp [Store.Get, hl, hw]
    · simp [Store.Get, hl]
  · intro now ps hn h
    exact get_miss_durable hn h
  · intro now ps it w hl hw
    refine ⟨?_, fun hex => ?_⟩
    · simp [PStore.Get, hl, hw]
    · constructor <;> simp [PStore.Get, hl, hex]

/-- Witness for C2: a wrong guess against the demo entry mutates nothing and
the correct hash still succeeds afterwards. -/
theorem get_wrong_hash_no_burn_w :
    Store.Get demoStore [97] "x" = ("", false, demoStore)
    ∧ (Store.Get demoStore [97] "h").2.1 = true :=
  (get_wrong_hash_no_burn demoStore [97]).2.1 ⟨"e", "h", 0⟩ "x" (by decide) (by decide)

/-- C5.  Content-addressed identifier: on both backends `Set` returns the
digest of `seed || ciphertext` (of fixed width 32 when the digest function
has 32-byte output, as SHA-256 does), and a second `Set` of byte-identical
ciphertext on the resulting store returns the same identifier. -/
theorem set_identifier_content_addressed (H : List Nat → List Nat) (s : Store)
    (enc h1 : String) (t1 : Int) (hH : ∀ b, (H b).length = 32) :
    (Store.Set H s enc h1 t1).1 = H (s.seed ++ strBytes enc)
    ∧ ((Store.Set H s enc h1 t1).1).length = 32
    ∧ (∀ (h2 : String) (t2 : Int),
        (Store.Set H (Store.Set H s enc h1 t1).2.2 enc h2 t2).1 = (Store.Set H s enc h1 t1).1)
    ∧ ∀ (now : Int) (ps : PStore) (hh : String) (tt : Int),
        (PStore.Set H now ps enc hh tt).1 = H (ps.seed ++ strBytes enc)
        ∧ ((PStore.Set H now ps enc hh tt).1).length = 32
        ∧ ∀ (now2 : Int) (h2 : String) (t2 : Int),
            (PStore.Set H now2 (PStore.Set H now ps enc hh tt).2.2 enc h2 t2).1
              = (PStore.Set H now ps enc hh tt).1 := by
  have hfst : ∀ (s' : Store) (hh : String) (tt : Int),
      (Store.Set H s' enc hh tt).1 = H (s'.seed ++ strBytes enc) := by
    intro s' hh tt
    rw [Store.Set]
    split <;> rfl
  refine ⟨hfst s h1 t1, ?_, ?_, ?_⟩
  · rw [hfst]
    exact hH _
  · intro h2 t2
    rw [hfst, hfst, Store.Set_seed]
  · intro now ps hh tt
    refine ⟨pset_fst H now ps enc hh tt, ?_, ?_⟩
    · rw [pset_fst]
      exact hH _
    · intro now2 h2 t2
      rw [pset_fst, pset_fst, PStore.sha, PStore.sha, pset_keeps_seed]

/-- Witness for C5, at a digest function of fixed 32-byte width. -/
theorem set_identifier_content_addressed_w :
    (Store.Set H32 demoStore "x" "h" 60).1 = H32 (demoStore.seed ++ strBytes "x")
    ∧ ((Store.Set H32 demoStore "x" "h" 60).1).length = 32
    ∧ (∀ (h2 : String) (t2 : Int),
        (Store.Set H32 (Store.Set H32 demoStore "x" "h" 60).2.2 "x" h2 t2).1
          = (Store.Set H32 demoStore "x" "h" 60).1)
    ∧ ∀ (now : Int) (ps : PStore) (hh : String) (tt : Int),
        (PStore.Set H32 now ps "x" hh tt).1 = H32 (ps.seed ++ strBytes "x")
        ∧ ((PStore.Set H32 now ps "x" hh tt).1).length = 32
        ∧ ∀ (now2 : Int) (h2 : String) (t2 : Int),
            (PStore.Set H32 now2 (PStore.Set H32 now ps "x" hh tt).2.2 "x" h2 t2).1
              = (PStore.Set H32 now ps "x" hh tt).1 :=
  set_identifier_content_addressed H32 demoStore "x" "h" 60 (fun b => by simp [H32])

/-- C7.  Durable `Get` classifies expired rows: a row matching
`(identifier, hash)` is deleted by the very statement that reads it; a row
already past its expiry counts as `expired` (not `burned`) and yields
`ok=false`, an unexpired row counts as `burned` and its ciphertext is
returned with `ok=true`. -/
theorem pget_expiry_classification (now : Int) (ps : PStore) (k : List Nat) (it : Item)
    (hl : alookup k ps.db.items = some it) :
    (PStore.Get now ps k it.hash).2.2.db.items = aerase k ps.db.items
    ∧ (now > it.expiry →
        (PStore.Get now ps k it.hash).2.1 = false
        ∧ (PStore.Get now ps k it.hash).2.2.db.expired = ps.db.expired + 1
        ∧ (PStore.Get now ps k it.hash).2.2.db.burned = ps.db.burned)
    ∧ (¬ now > it.expiry →
        (PStore.Get now ps k it.hash).1 = it.enc
        ∧ (PStore.Get now ps k it.hash).2.1 = true
        ∧ (PStore.Get now ps k it.hash).2.2.db.burned = ps.db.burned + 1
        ∧ (PStore.Get now ps k it.hash).2.2.db.expired = ps.db.expired) := by
  by_cases hex : now > it.expiry
  · refine ⟨?_, fun _ => ⟨?_, ?_, ?_⟩, fun hc => absurd hex hc⟩ <;> simp [PStore.Get, hl, hex]
  · refine ⟨?_, fun hc => absurd hc hex, fun _ => ⟨?_, ?_, ?_, ?_⟩⟩ <;> simp [PStore.Get, hl, hex]

/-- Witness for C7: an unexpired stored secret is deleted, counted as
burned, and its ciphertext returned. -/
theorem pget_expiry_classification_w :
    (PStore.Get 50 (PStore.Set H0 0 P0 "a" "h" 100).2.2 [97] "h").2.2.db.items
      = aerase [97] (PStore.Set H0 0 P0 "a" "h" 100).2.2.db.items
    ∧ ((PStore.Get 50 (PStore.Set H0 0 P0 "a" "h" 100).2.2 [97] "h").1 = "a"
        ∧ (PStore.Get 50 (PStore.Set H0 0 P0 "a" "h" 100).2.2 [97] "h").2.1 = true
        ∧ (PStore.Get 50 (PStore.Set H0 0 P0 "a" "h" 100).2.2 [97] "h").2.2.db.burned
            = (PStore.Set H0 0 P0 "a" "h" 100).2.2.db.burned + 1
        ∧ (PStore.Get 50 (PStore.Set H0 0 P0 "a" "h" 100).2.2 [97] "h").2.2.db.expired
            = (PStore.Set H0 0 P0 "a" "h" 100).2.2.db.expired) := by
  have h := pget_expiry_classification 50 (PStore.Set H0 0 P0 "a" "h" 100).2.2 [97]
    ⟨"a", "h", 100⟩ (by decide)
  exact ⟨h.1, h.2.2 (by decide)⟩

/-- C9.  Round trip: a successful `Set` followed immediately by `Get` with
the returned identifier and the same hash yields the stored ciphertext with
`ok=true`. -/
theorem set_get_round_trip (H : List Nat → List Nat) (s : Store) (enc hash : String)
    (ttl : Int) (hok : (Store.Set H s enc hash ttl).2.1 = true) :
    (Store.Get (Store.Set H s enc hash ttl).2.2 (Store.Set H s enc hash ttl).1 hash).1 = enc
    ∧ (Store.Get (Store.Set H s enc hash ttl).2.2 (Store.Set H s enc hash ttl).1 hash).2.1
        = true := by
  by_cases hcap : 0 < s.sizeLimit ∧ s.sizeLimit ≤ (s.data.length : Int)
  · simp [Store.Set, hcap] at hok
  · constructor <;> simp [Store.Set, hcap, Store.Get, alookup_ainsert_self]

/-- Witness for C9 on a fresh unbounded store. -/
theorem set_get_round_trip_w :
    (Store.Get (Store.Set H0 (NewStore [] 0) "abc" "h" 60).2.2
        (Store.Set H0 (NewStore [] 0) "abc" "h" 60).1 "h").1 = "abc"
    ∧ (Store.Get (Store.Set H0 (NewStore [] 0) "abc" "h" 60).2.2
        (Store.Set H0 (NewStore [] 0) "abc" "h" 60).1 "h").2.1 = true :=
  set_get_round_trip H0 (NewStore [] 0) "abc" "h" 60 (by decide)

/-- C10.  Zero capacity disagrees between the backends: the volatile `Set`
with a non-positive size limit skips the capacity check and always inserts
with `ok=true`, while the durable `Set` with `maxItems = 0` rejects every
insert with `ok=false` and no mutation. -/
theorem set_zero_capacity_divergence (H : List Nat → List Nat) (s : Store)
    (enc hash : String) (ttl : Int) (hnp : s.sizeLimit ≤ 0) :
    (Store.Set H s enc hash ttl).2.1 = true
    ∧ ∀ (now : Int) (ps : PStore) (e hh : String) (t : Int), ps.maxItems = 0 →
        PStore.Set H now ps e hh t = (PStore.sha H ps e, false, ps) := by
  constructor
  · have hcap : ¬(0 < s.sizeLimit ∧ s.sizeLimit ≤ (s.data.length : Int)) := by
      intro hc
      exact absurd hc.1 (by omega)
    simp [Store.Set, hcap]
  · intro now ps e hh t h0
    have hcap : ps.maxItems ≤ ps.db.items.length := by omega
    simp [PStore.Set, hcap]

/-- Witness for C10 at a volatile store configured with limit `0`. -/
theorem set_zero_capacity_divergence_w :
    (Store.Set H0 (NewStore [] 0) "a" "h" 60).2.1 = true
    ∧ ∀ (now : Int) (ps : PStore) (e hh : String) (t : Int), ps.maxItems = 0 →
        PStore.Set H0 now ps e hh t = (PStore.sha H0 ps e, false, ps) :=
  set_zero_capacity_divergence H0 (NewStore [] 0) "a" "h" 60 (by decide)

/-- C3.  The seed is not continuous across the first restart: on a fresh
database the generated seed is persisted but `initDB` returns the shadowed
nil named return, so the first instance derives identifiers from the empty
seed while every later instance uses the persisted one.  The stored entry is
still retrievable by the identifier the original `Set` returned, but
re-deriving the identifier of the same ciphertext after the restart gives a
different value. -/
theorem durable_seed_restart_bug :
    NewPersistentStore [7] 10 freshDB 0 = some P1
    ∧ P1.seed = []
    ∧ (PStore.Set H0 0 P1 "a" "h" 100).2.1 = true
    ∧ NewPersistentStore [9] 10 bootDB 0 = some P3
    ∧ P3.seed = [7]
    ∧ P3.seed ≠ P1.seed
    ∧ (PStore.Get 50 P3 (PStore.Set H0 0 P1 "a" "h" 100).1 "h").1 = "a"
    ∧ (PStore.Get 50 P3 (PStore.Set H0 0 P1 "a" "h" 100).1 "h").2.1 = true
    ∧ (PStore.Set H0 50 P3 "a" "h" 100).1 ≠ (PStore.Set H0 0 P1 "a" "h" 100).1 := by
  decide

/-- C4 counterexample: a volatile store configured with capacity `0` is at
capacity (`0 ≤ 0` live entries) yet `Set` succeeds; and a durable store
strictly below capacity whose fresh insert collides with a live identifier
has `Set` return `ok=false` instead of inserting. -/
theorem set_capacity_cex :
    (NewStore [] 0).sizeLimit ≤ ((NewStore [] 0).data.length : Int)
    ∧ (Store.Set H0 (NewStore [] 0) "a" "h" 60).2.1 = true
    ∧ (PStore.Set H0 0 P0 "a" "h1" 100).2.2.db.items.length
        < (PStore.Set H0 0 P0 "a" "h1" 100).2.2.maxItems
    ∧ (PStore.Set H0 0 (PStore.Set H0 0 P0 "a" "h1" 100).2.2 "a" "h2" 50).2.1 = false := by
  decide

/-- C4 amended: provided the configured capacity is positive (a
non-positive volatile limit disables the check, cf. C10), `Set` at or over
capacity rejects without mutation, and below capacity inserts the entry,
schedules its eviction after `ttl`, bumps `added` and returns `ok=true` —
for the durable backend additionally provided the computed identifier is
not already a live row (cf. C6); with capacity 1, two sequential volatile
`Set` calls leave the second rejected and the live count at 1. -/
theorem set_capacity_amended (H : List Nat → List Nat) (s : Store) (enc hash : String)
    (ttl : Int) (hpos : 0 < s.sizeLimit) :
    (s.sizeLimit ≤ (s.data.length : Int) →
      Store.Set H s enc hash ttl = (Store.sha H s enc, false, s))
    ∧ ((s.data.length : Int) < s.sizeLimit →
      (Store.Set H s enc hash ttl).2.1 = true
      ∧ (Store.Set H s enc hash ttl).2.2.data
          = ainsert (Store.sha H s enc) ⟨enc, hash, s.nextTimer⟩ s.data
      ∧ (Store.Set H s enc hash ttl).2.2.timers
          = (s.nextTimer, Store.sha H s enc, ttl) :: s.timers
      ∧ (Store.Set H s enc hash ttl).2.2.added = s.added + 1)
    ∧ (∀ (now : Int) (ps : PStore) (e hh : String) (tt : Int),
        ps.maxItems ≤ ps.db.items.length →
        PStore.Set H now ps e hh tt = (PStore.sha H ps e, false, ps))
    ∧ (∀ (now : Int) (ps : PStore) (e hh : String) (tt : Int),
        ps.db.items.length < ps.maxItems →
        alookup (PStore.sha H ps e) ps.db.items = none →
        (PStore.Set H now ps e hh tt).2.1 = true
        ∧ (PStore.Set H now ps e hh tt).2.2.db.items
            = (PStore.sha H ps e, ⟨e, hh, now + tt⟩) :: ps.db.items
        ∧ (PStore.Set H now ps e hh tt).2.2.db.added = ps.db.added + 1)
    ∧ (∀ (seed : List Nat) (e1 hh1 : String) (tt1 : Int) (e2 hh2 : String) (tt2 : Int),
        (Store.Set H (Store.Set H (NewStore seed 1) e1 hh1 tt1).2.2 e2 hh2 tt2).2.1 = false
        ∧ (Store.Set H (Store.Set H (NewStore seed 1) e1 hh1 tt1).2.2
            e2 hh2 tt2).2.2.data.length = 1) := by
  refine ⟨?_, ?_, ?_, ?_, ?_⟩
  · intro hge
    have hcap : 0 < s.sizeLimit ∧ s.sizeLimit ≤ (s.data.length : Int) := ⟨hpos, hge⟩
    simp [Store.Set, hcap]
  · intro hlt
    have hcap : ¬(0 < s.sizeLimit ∧ s.sizeLimit ≤ (s.data.length : Int)) := by
      intro hc
      omega
    refine ⟨?_, ?_, ?_, ?_⟩ <;> simp [Store.Set, hcap]
  · intro now ps e hh tt hge
    simp [PStore.Set, hge]
  · intro now ps e hh tt hlt hfree
    have hcap : ¬ ps.maxItems ≤ ps.db.items.length := by omega
    refine ⟨?_, ?_, ?_⟩ <;> simp [PStore.Set, hcap, hfree]
  · intro seed e1 hh1 tt1 e2 hh2 tt2
    have h1 : ¬(0 < (NewStore seed 1).sizeLimit
        ∧ (NewStore seed 1).sizeLimit ≤ (((NewStore seed 1).data.length : Nat) : Int)) := by
      simp [NewStore]
    have hlen : ((Store.Set H (NewStore seed 1) e1 hh1 tt1).2.2.data.length : Int) = 1 := by
      simp [Store.Set, h1, NewStore, ainsert, aerase]
    have h2 : 0 < (Store.Set H (NewStore seed 1) e1 hh1 tt1).2.2.sizeLimit
        ∧ (Store.Set H (NewStore seed 1) e1 hh1 tt1).2.2.sizeLimit
          ≤ ((Store.Set H (NewStore seed 1) e1 hh1 tt1).2.2.data.length : Int) := by
      constructor
      · simp [Store.Set, h1, NewStore]
      · rw [show (Store.Set H (NewStore seed 1) e1 hh1 tt1).2.2.sizeLimit = 1 by
          simp [Store.Set, h1, NewStore], hlen]
    constructor
    · rw [Store.Set, if_pos h2]
    · have heq : (Store.Set H (Store.Set H (NewStore seed 1) e1 hh1 tt1).2.2 e2 hh2 tt2).2.2
          = (Store.Set H (NewStore seed 1) e1 hh1 tt1).2.2 := by
        rw [Store.Set, if_pos h2]
      rw [heq]
      exact_mod_cast hlen

/-- Witness for the C4 amended theorem at capacity 1. -/
theorem set_capacity_amended_w :
    ((NewStore [] 1).sizeLimit ≤ ((NewStore [] 1).data.length : Int) →
      Store.Set H0 (NewStore [] 1) "a" "h" 60 = (Store.sha H0 (NewStore [] 1) "a", false,
        NewStore [] 1))
    ∧ (((NewStore [] 1).data.length : Int) < (NewStore [] 1).sizeLimit →
      (Store.Set H0 (NewStore [] 1) "a" "h" 60).2.1 = true
      ∧ (Store.Set H0 (NewStore [] 1) "a" "h" 60).2.2.data
          = ainsert (Store.sha H0 (NewStore [] 1) "a") ⟨"a", "h", (NewStore [] 1).nextTimer⟩
              (NewStore [] 1).data
      ∧ (Store.Set H0 (NewStore [] 1) "a" "h" 60).2.2.timers
          = ((NewStore [] 1).nextTimer, Store.sha H0 (NewStore [] 1) "a", 60)
              :: (NewStore [] 1).timers
      ∧ (Store.Set H0 (NewStore [] 1) "a" "h" 60).2.2.added = (NewStore [] 1).added + 1)
    ∧ (∀ (now : Int) (ps : PStore) (e hh : String) (tt : Int),
        ps.maxItems ≤ ps.db.items.length →
        PStore.Set H0 now ps e hh tt = (PStore.sha H0 ps e, false, ps))
    ∧ (∀ (now : Int) (ps : PStore) (e hh : String) (tt : Int),
        ps.db.items.length < ps.maxItems →
        alookup (PStore.sha H0 ps e) ps.db.items = none →
        (PStore.Set H0 now ps e hh tt).2.1 = true
        ∧ (PStore.Set H0 now ps e hh tt).2.2.db.items
            = (PStore.sha H0 ps e, ⟨e, hh, now + tt⟩) :: ps.db.items
        ∧ (PStore.Set H0 now ps e hh tt).2.2.db.added = ps.db.added + 1)
    ∧ (∀ (seed : List Nat) (e1 hh1 : String) (tt1 : Int) (e2 hh2 : String) (tt2 : Int),
        (Store.Set H0 (Store.Set H0 (NewStore seed 1) e1 hh1 tt1).2.2 e2 hh2 tt2).2.1 = false
        ∧ (Store.Set H0 (Store.Set H0 (NewStore seed 1) e1 hh1 tt1).2.2
            e2 hh2 tt2).2.2.data.length = 1) :=
  set_capacity_amended H0 (NewStore [] 1) "a" "h" 60 (by decide)

/-- C6 counterexample: on the durable backend, a successful `Set` followed
by a `Set` of the same ciphertext (below capacity) has the second call
return `ok=false`, and the identifier still maps to the FIRST entry — the
primary-key conflict makes the collision first-write-wins, not
last-write-wins. -/
theorem set_collision_cex :
    (PStore.Set H0 0 P0 "a" "h1" 100).2.1 = true
    ∧ (PStore.Set H0 0 (PStore.Set H0 0 P0 "a" "h1" 100).2.2 "a" "h2" 50).2.1 = false
    ∧ alookup (PStore.Set H0 0 P0 "a" "h1" 100).1
        (PStore.Set H0 0 (PStore.Set H0 0 P0 "a" "h1" 100).2.2 "a" "h2" 50).2.2.db.items
      = some ⟨"a", "h1", 100⟩ := by
  decide

/-- C6 amended: last-write-wins holds for the volatile backend — after a
second successful `Set` of the same ciphertext the identifier maps to the
second entry and its eviction is scheduled from the second ttl — while the
durable backend rejects the colliding insert outright, leaving the first
row in place. -/
theorem set_collision_amended (H : List Nat → List Nat) (s : Store) (enc h1 h2 : String)
    (t1 t2 : Int)
    (hok2 : (Store.Set H (Store.Set H s enc h1 t1).2.2 enc h2 t2).2.1 = true) :
    alookup (Store.Set H s enc h1 t1).1
        (Store.Set H (Store.Set H s enc h1 t1).2.2 enc h2 t2).2.2.data
      = some ⟨enc, h2, (Store.Set H s enc h1 t1).2.2.nextTimer⟩
    ∧ ((Store.Set H s enc h1 t1).2.2.nextTimer, (Store.Set H s enc h1 t1).1, t2)
        ∈ (Store.Set H (Store.Set H s enc h1 t1).2.2 enc h2 t2).2.2.timers
    ∧ ∀ (now : Int) (ps : PStore) (it : Item) (e hh : String) (tt : Int),
        alookup (PStore.sha H ps e) ps.db.items = some it →
        PStore.Set H now ps e hh tt = (PStore.sha H ps e, false, ps) := by
  have hfst : (Store.Set H s enc h1 t1).1 = Store.sha H s enc := by
    rw [Store.Set]
    split <;> rfl
  have hsha : Store.sha H (Store.Set H s enc h1 t1).2.2 enc = Store.sha H s enc := by
    rw [Store.sha, Store.sha, Store.Set_seed]
  set s1 := (Store.Set H s enc h1 t1).2.2 with hs1
  by_cases hcap : 0 < s1.sizeLimit ∧ s1.sizeLimit ≤ (s1.data.length : Int)
  · simp [Store.Set, hcap] at hok2
  · refine ⟨?_, ?_, ?_⟩
    · rw [hfst, Store.Set, if_neg hcap, ← hsha]
      exact alookup_ainsert_self
    · rw [hfst, Store.Set, if_neg hcap, ← hsha]
      exact List.mem_cons_self _ _
    · intro now ps it e hh tt hl
      by_cases hcapp : ps.maxItems ≤ ps.db.items.length
      · simp [PStore.Set, hcapp]
      · simp [PStore.Set, hcapp, hl]

/-- Witness for the C6 amended theorem on an unbounded volatile store. -/
theorem set_collision_amended_w :
    alookup (Store.Set H0 (NewStore [] 0) "a" "h1" 60).1
        (Store.Set H0 (Store.Set H0 (NewStore [] 0) "a" "h1" 60).2.2 "a" "h2" 90).2.2.data
      = some ⟨"a", "h2", (Store.Set H0 (NewStore [] 0) "a" "h1" 60).2.2.nextTimer⟩
    ∧ ((Store.Set H0 (NewStore [] 0) "a" "h1" 60).2.2.nextTimer,
        (Store.Set H0 (NewStore [] 0) "a" "h1" 60).1, 90)
        ∈ (Store.Set H0 (Store.Set H0 (NewStore [] 0) "a" "h1" 60).2.2 "a" "h2" 90).2.2.timers
    ∧ ∀ (now : Int) (ps : PStore) (it : Item) (e hh : String) (tt : Int),
        alookup (PStore.sha H0 ps e) ps.db.items = some it →
        PStore.Set H0 now ps e hh tt = (PStore.sha H0 ps e, false, ps) :=
  set_collision_amended H0 (NewStore [] 0) "a" "h1" "h2" 60 90 (by decide)

/-- C8 counterexample: the counter balance `added = burned + expired + live`
FAILS in a state reachable from a fresh store — two `Set` calls with
byte-identical ciphertext collide on the content address, overwriting one
live entry while `added` is incremented twice. -/
theorem metrics_balance_cex :
    ¬ ∀ s : Store, Relation.ReflTransGen (VStep H0) (NewStore [] 5) s →
        s.added = s.burned + s.expired + s.data.length := by
  intro hall
  have hr : Relation.ReflTransGen (VStep H0) (NewStore [] 5)
      (Store.Set H0 (Store.Set H0 (NewStore [] 5) "a" "h1" 60).2.2 "a" "h2" 60).2.2 :=
    Relation.ReflTransGen.tail
      (Relation.ReflTransGen.tail Relation.ReflTransGen.refl
        (VStep.set (NewStore [] 5) "a" "h1" 60))
      (VStep.set (Store.Set H0 (NewStore [] 5) "a" "h1" 60).2.2 "a" "h2" 60)
  have hbal := hall _ hr
  revert hbal
  decide

/-- C8 amended: along every sequence of `Set`, `Get` and eviction-timer
steps from a fresh store in which no successful `Set` overwrites a live
entry (no content-address collision with a live identifier), the metrics
satisfy `added = burned + expired + live`. -/
theorem metrics_balance_amended (H : List Nat → List Nat) (seed : List Nat) (max : Int)
    (s : Store) (hr : Relation.ReflTransGen (NCStep H) (NewStore seed max) s) :
    (Store.Metrics s).2.1
      = (Store.Metrics s).2.2.2 + (Store.Metrics s).2.2.1 + (Store.Metrics s).1 :=
  (ncReach_preserves_Inv hr (Inv_NewStore seed max)).1

/-- Witness for the C8 amended theorem after one collision-free `Set`. -/
theorem metrics_balance_amended_w :
    (Store.Metrics (Store.Set H0 (NewStore [] 5) "a" "h" 60).2.2).2.1
      = (Store.Metrics (Store.Set H0 (NewStore [] 5) "a" "h" 60).2.2).2.2.2
        + (Store.Metrics (Store.Set H0 (NewStore [] 5) "a" "h" 60).2.2).2.2.1
        + (Store.Metrics (Store.Set H0 (NewStore [] 5) "a" "h" 60).2.2).1 :=
  metrics_balance_amended H0 [] 5 _
    (Relation.ReflTransGen.tail Relation.ReflTransGen.refl
      (NCStep.set (NewStore [] 5) "a" "h" 60 (fun _ => rfl)))

end Poof
